import Mathlib

/-!
# Verification of the tiedye dependency-injection engine

A shallow embedding of `tiedye/__init__.py` (a Python 2 library): interface
identities, the process-wide dependency registry on the `Application`, and the
`Injector`'s binding/resolution engine (`bind`, `specialize`), together with
theorems checking the natural-language specification against this embedding.

Modelling conventions:
* Python objects that are only compared by identity are represented by their
  `id()` value (a `Nat`); an interface object is a pair of its own identity and
  the identity of its type (`type(interface)`), since `bind` looks interfaces
  up first by the object itself and then by its type.
* Python dicts keyed by object identity (the provider table, the dependency
  registry, the `bound_funcs` memo) are association lists updated by `dinsert`
  (replace the existing binding for a key, else append) and read by `dlookup`.
* Callables are `func` (a plain function), `method` (a bound method: the
  underlying function plus the instance it is bound to; two bound methods are
  equal exactly when both components agree, as in Python 2), `part`
  (a `functools.partial` object, identified by its allocation id in a heap of
  partial records), and `injSelf` (the `lambda dummy: self` closure each
  `Injector.__init__` installs for the `Injector` key).
* The behaviour of user-written plain functions is a parameter
  `impl : Nat → FnSpec` giving each function id its parameter list and a pure
  body evaluated on the final name → value assignment; calling follows
  Python's binding of positional and keyword arguments and yields `TypeError`
  on arity violations.
* Mutation is explicit state passing over a `World` (the shared application's
  dependency registry, every injector's state, the heap of partial objects);
  exceptions propagate the world in which they were raised, as Python's
  exceptions leave prior mutations in place.
* Recursion in `bind` is measured by explicit fuel; `Err.fuelOut` marks fuel
  exhaustion and appears in no real execution of a terminating scenario.
-/

namespace Tiedye

set_option maxHeartbeats 1000000

/-! ## Data model and operations -/

/-- The identity (`id()`) of a Python object. -/
abbrev OId := Nat

/-- An interface value as `bind` sees it: its own identity and the identity of
its type (`type(interface)`), used for the kind-level table lookup. -/
structure PyObj where
  oid : OId
  cls : OId
deriving DecidableEq, Repr

/-- A Python callable, as far as the engine distinguishes callables. -/
inductive Callable where
  /-- A plain function, by identity. -/
  | func (fid : Nat)
  /-- A bound method: underlying function and the bound instance.  Python 2
  bound methods compare equal iff `im_func` and `im_self` agree, which the
  derived equality mirrors. -/
  | method (fid : Nat) (inst : PyObj)
  /-- A `functools.partial` object, by the id of its record in the heap. -/
  | part (pid : Nat)
  /-- The `lambda dummy: self` provider installed by `Injector.__init__` for
  injector `inj`. -/
  | injSelf (inj : Nat)
deriving DecidableEq, Repr

/-- Values passed around at call time. -/
inductive Value where
  /-- A reference to an object (an interface, a provider-set instance, ...). -/
  | obj (o : PyObj)
  /-- A string result. -/
  | str (s : String)
  /-- A reference to an injector. -/
  | inj (i : Nat)
  /-- A pair, modelling a 2-tuple result. -/
  | pair (a b : Value)
deriving DecidableEq, Repr

/-- The record held by a `functools.partial` object: the wrapped callable and
the captured keyword arguments. -/
structure PartRec where
  target : Callable
  kwargs : List (String × Value)
deriving DecidableEq, Repr

/-- Errors: `typeError` models Python's `TypeError`, `depCycle` the library's
`DependencyCycleError` (with its message), `fuelOut` exhaustion of the
recursion fuel of the embedding (not a Python behaviour). -/
inductive Err where
  | typeError
  | depCycle (msg : String)
  | fuelOut
deriving DecidableEq, Repr

/-- Dict insertion keyed by decidable equality: replace the binding of an
existing key in place, otherwise append the new binding. -/
def dinsert {α β : Type} [DecidableEq α] (k : α) (v : β) : List (α × β) → List (α × β)
  | [] => [(k, v)]
  | (k', v') :: rest => if k' = k then (k, v) :: rest else (k', v') :: dinsert k v rest

/-- Dict lookup. -/
def dlookup {α β : Type} [DecidableEq α] (k : α) : List (α × β) → Option β
  | [] => none
  | (k', v) :: rest => if k' = k then some v else dlookup k rest

/-- `base.update(upd)` on dicts: fold the update's bindings into the base. -/
def dictUpdate {α β : Type} [DecidableEq α] (base upd : List (α × β)) : List (α × β) :=
  upd.foldl (fun acc kv => dinsert kv.1 kv.2 acc) base

/-- The state of one `Injector` instance. -/
structure InjState where
  /-- `self.providers`: table keys are object identities (interface instances
  or type objects), values the provider callables. -/
  providers : List (OId × Callable)
  /-- `self.currently_binding`: the set of underlying callables mid-resolution. -/
  currentlyBinding : List Callable
  /-- `self.bound_funcs`: memo from the callable as given to its bound artifact. -/
  boundFuncs : List (Callable × Callable)
deriving DecidableEq, Repr

/-- The whole mutable state: the application's dependency registry, the states
of all injectors created so far, and the heap of `functools.partial` objects. -/
structure World where
  /-- `app.dependency_map`: callable ↦ declared dependency spec. -/
  depMap : List (Callable × List (String × PyObj))
  /-- Each injector's state, keyed by injector id. -/
  injs : List (Nat × InjState)
  /-- The id the next `Injector(...)` will receive. -/
  nextInj : Nat
  /-- The heap of partial records, keyed by allocation id. -/
  parts : List (Nat × PartRec)
  /-- The id the next `functools.partial(...)` will receive. -/
  nextPid : Nat
deriving DecidableEq, Repr

/-- The empty world: one `Application()`, no injectors, no partials. -/
def World.init : World := ⟨[], [], 0, [], 0⟩

/-- Read injector `i`'s state. -/
def World.inj (w : World) (i : Nat) : InjState :=
  (dlookup i w.injs).getD ⟨[], [], []⟩

/-- Overwrite injector `i`'s state. -/
def World.setInj (w : World) (i : Nat) (s : InjState) : World :=
  { w with injs := dinsert i s w.injs }

/-- `app.dependencies(c, **m)` in its registration effect: insert/overwrite the
spec for `c` in the process-wide registry. -/
def registerDep (c : Callable) (m : List (String × PyObj)) (w : World) : World :=
  { w with depMap := dinsert c m w.depMap }

/-- What a call to `Application.dependencies` evaluates to. -/
inductive DepReturn where
  /-- The direct-call shape falls off the end of the function: `None`. -/
  | retNone
  /-- The decorator shape returns the inner `register` closure, which captured
  the keyword mapping. -/
  | retRegister (mapping : List (String × PyObj))
  /-- A return of the given callable.  The modelled code never produces this in
  the direct-call shape; the constructor exists so that the statement
  "the direct call returns its target" can be written down and compared with
  what the code actually returns. -/
  | retValue (c : Callable)
deriving DecidableEq, Repr

/-- `Application.dependencies(*args, **mapping)`: with one positional target it
runs `register(args[0])` (registration side effect) and returns `None`; with
none it returns the `register` closure; otherwise it raises `TypeError`. -/
def dependencies (args : List Callable) (mapping : List (String × PyObj))
    (w : World) : (Except Err DepReturn) × World :=
  match args with
  | [a] => (.ok .retNone, registerDep a mapping w)
  | [] => (.ok (.retRegister mapping), w)
  | _ => (.error .typeError, w)

/-- Applying the `register` closure returned by the decorator shape to a
callable: registers the captured mapping and returns the callable unchanged. -/
def applyRegister (mapping : List (String × PyObj)) (c : Callable)
    (w : World) : Callable × World :=
  (c, registerDep c mapping w)

/-- Peel a bound method down to its underlying function (`func.im_func`) for
registry and cycle bookkeeping; every other callable is its own lookup key. -/
def peel : Callable → Callable
  | .method fid _ => .func fid
  | c => c

/-- Models `", ".join(self.currently_binding)`: Python 2 `str.join` requires
every item to be a string and raises `TypeError` otherwise.  The set holds
function/method objects, never strings, so the join succeeds only when the
collection is empty. -/
def joinCallables : List Callable → Except Err String
  | [] => .ok ""
  | _ :: _ => .error .typeError

/-- The provider lookup of `Injector.bind`: first the interface object itself
(`interface in self.providers`), then its type
(`type(interface) in self.providers`), else no provider. -/
def chooseProvider (s : InjState) (iface : PyObj) : Option Callable :=
  match dlookup iface.oid s.providers with
  | some p => some p
  | none => dlookup iface.cls s.providers

/-- Merge captured partial kwargs with call-site kwargs
(`merged = stored.copy(); merged.update(caller)`): call-site entries win. -/
def mergeKw (stored caller : List (String × Value)) : List (String × Value) :=
  dictUpdate stored caller

/-- The semantics of one user-written plain function: its parameter names in
order and a pure body evaluated on the name → value assignment. -/
structure FnSpec where
  params : List String
  body : List (String × Value) → Value

/-- Python call binding for `f(*pos, **kw)` against a parameter list with no
defaults: positionals fill the leading parameters, keywords must name the
remaining parameters exactly; any violation is a `TypeError`. -/
def callFn (spec : FnSpec) (pos : List Value) (kw : List (String × Value)) :
    Except Err Value :=
  let posNames := spec.params.take pos.length
  let restNames := spec.params.drop pos.length
  if spec.params.length < pos.length then .error .typeError
  else if kw.any (fun kv => posNames.contains kv.1) then .error .typeError
  else if kw.any (fun kv => ¬ spec.params.contains kv.1) then .error .typeError
  else if restNames.any (fun n => ¬ kw.any (fun kv => kv.1 = n)) then .error .typeError
  else .ok (spec.body (spec.params.zip pos ++ kw))

/-- Calling a callable with positional and keyword arguments.  A partial
forwards to its target with its captured kwargs merged under the call-site
kwargs; the injector's self-provider ignores its single argument and returns
the injector.  Fuel bounds the (finite) chain of partial wrappers. -/
def callC (impl : Nat → FnSpec) (parts : List (Nat × PartRec)) :
    Nat → Callable → List Value → List (String × Value) → Except Err Value
  | 0, _, _, _ => .error .fuelOut
  | _ + 1, .func fid, pos, kw => callFn (impl fid) pos kw
  | _ + 1, .method fid inst, pos, kw => callFn (impl fid) (Value.obj inst :: pos) kw
  | _ + 1, .injSelf i, pos, kw =>
      if pos.length = 1 ∧ kw = [] then .ok (.inj i) else .error .typeError
  | fuel + 1, .part pid, pos, kw =>
      match dlookup pid parts with
      | none => .error .typeError
      | some r => callC impl parts fuel r.target pos (mergeKw r.kwargs kw)

/-- The dependency-resolution loop of `Injector.bind` (lines 156–176): for each
`(name, interface)` of the spec, look the provider up exact-then-kind; with no
provider record the pair as unprovided and continue; otherwise recursively bind
the provider (through `bnd`, instantiated with `bind` at the remaining fuel)
and invoke the bound provider on the interface.  Returns the resolved kwargs
and the unprovided pairs, in spec order. -/
def bindArgs (impl : Nat → FnSpec)
    (bnd : Callable → World → (Except Err Callable) × World)
    (callFuel : Nat) (i : Nat) :
    List (String × PyObj) → World →
      (Except Err (List (String × Value) × List (String × PyObj))) × World
  | [], w => (.ok ([], []), w)
  | (name, iface) :: rest, w =>
    match chooseProvider (w.inj i) iface with
    | none =>
        match bindArgs impl bnd callFuel i rest w with
        | (.ok (kws, unps), w') => (.ok (kws, (name, iface) :: unps), w')
        | (.error e, w') => (.error e, w')
    | some p =>
        match bnd p w with
        | (.error e, w') => (.error e, w')
        | (.ok bp, w') =>
          match callC impl w'.parts callFuel bp [.obj iface] [] with
          | .error e => (.error e, w')
          | .ok v =>
            match bindArgs impl bnd callFuel i rest w' with
            | (.ok (kws, unps), w'') => (.ok ((name, v) :: kws, unps), w'')
            | (.error e, w'') => (.error e, w'')

/-- `Injector.bind(func)` on injector `i`.  Follows the source line by line:
memo check on the callable as given; peel bound methods for the registry key;
cycle check against `currently_binding` (whose error message construction
`", ".join(...)` is modelled by `joinCallables`); add to `currently_binding`;
resolve the declared spec through `bindArgs`; remove from `currently_binding`
(reached only on the success path — the source has no `try/finally`);
allocate the `functools.partial` artifact; declare any unprovided names on the
artifact; memoize and return it. -/
def bindF (impl : Nat → FnSpec) : Nat → Nat → Callable → World →
    (Except Err Callable) × World
  | 0, _, _, w => (.error .fuelOut, w)
  | fuel + 1, i, func, w =>
    match dlookup func (w.inj i).boundFuncs with
    | some cached => (.ok cached, w)
    | none =>
      let lookupFunc := peel func
      if lookupFunc ∈ (w.inj i).currentlyBinding then
        match joinCallables (w.inj i).currentlyBinding with
        | .error e => (.error e, w)
        | .ok msg =>
            (.error (.depCycle ("Dependency cycle between the following callables: " ++ msg)), w)
      else
        let s := w.inj i
        let w1 := w.setInj i { s with currentlyBinding := lookupFunc :: s.currentlyBinding }
        let deps := (dlookup lookupFunc w1.depMap).getD []
        match bindArgs impl (fun c wa => bindF impl fuel i c wa) fuel i deps w1 with
        | (.error e, w2) => (.error e, w2)
        | (.ok (kwargs, unprovided), w2) =>
          let s2 := w2.inj i
          let w3 := w2.setInj i { s2 with currentlyBinding := s2.currentlyBinding.erase lookupFunc }
          let pid := w3.nextPid
          let w4 := { w3 with parts := dinsert pid ⟨func, kwargs⟩ w3.parts, nextPid := pid + 1 }
          let injected := Callable.part pid
          let w5 := if unprovided.isEmpty then w4 else registerDep injected unprovided w4
          let s5 := w5.inj i
          let w6 := w5.setInj i { s5 with boundFuncs := dinsert func injected s5.boundFuncs }
          (.ok injected, w6)

/-- One provider record of a `ProviderSet`: the raw function, the interfaces it
provides (`provider_interfaces`, as table keys), and its declared dependencies
(`provider_dependencies`). -/
structure ProvRec where
  fid : Nat
  provider_interfaces : List OId
  provider_dependencies : List (String × PyObj)

/-- A `ProviderSet` instance: the instance object and its provider records. -/
structure ProviderSetV where
  inst : PyObj
  provs : List ProvRec

/-- The identity of the `Injector` class object itself, the key of the
self-provider entry every constructor installs. -/
def injectorClsId : OId := 0

/-- `Injector.__init__`: register each provider record's dependencies on the
app, install the instance-bound provider for each of its interfaces, overlay
`local_providers`, install the self-provider for the `Injector` key, and
create the injector's state with an empty memo and an empty resolving set.
Returns the new injector's id and the updated world. -/
def injectorInit (psets : List ProviderSetV)
    (localProviders : Option (List (OId × Callable))) (w : World) : Nat × World :=
  let myId := w.nextInj
  let step := fun (acc : World × List (OId × Callable)) (ps : ProviderSetV) =>
    ps.provs.foldl
      (fun (acc2 : World × List (OId × Callable)) r =>
        (registerDep (.func r.fid) r.provider_dependencies acc2.1,
         r.provider_interfaces.foldl
           (fun provs iface => dinsert iface (Callable.method r.fid ps.inst) provs)
           acc2.2))
      acc
  let built := psets.foldl step (w, [])
  let provs1 := match localProviders with
    | some lp => dictUpdate built.2 lp
    | none => built.2
  let provs2 := dinsert injectorClsId (Callable.injSelf myId) provs1
  (myId,
   { built.1 with
       injs := dinsert myId ⟨provs2, [], []⟩ built.1.injs,
       nextInj := myId + 1 })

/-- `Injector.specialize`: snapshot-copy the current table, overlay the new
`local_providers`, and construct a brand-new injector from provider sets plus
the merged table. -/
def specializeInj (parentI : Nat) (psets : List ProviderSetV)
    (localProviders : Option (List (OId × Callable))) (w : World) : Nat × World :=
  let newProviders := match localProviders with
    | some lp => dictUpdate (w.inj parentI).providers lp
    | none => (w.inj parentI).providers
  injectorInit psets (some newProviders) w

/-- A source of fresh object identities, threaded through interface creation. -/
structure IdGen where
  next : Nat
deriving DecidableEq, Repr

/-- `make_interface`: mint a fresh one-off type and return its sole instance. -/
def make_interface (g : IdGen) : PyObj × IdGen :=
  (⟨g.next + 1, g.next⟩, ⟨g.next + 2⟩)

/-- An interface enumeration: the shared type (kind) and the member attribute
map after the construction loop. -/
structure IfEnum where
  kind : OId
  members : List (String × PyObj)
deriving DecidableEq, Repr

/-- `make_interface_enum(*names)`: mint a fresh type, then for each name in
order create an instance of it and `setattr` it on the type (overwriting any
earlier attribute of the same name). -/
def make_interface_enum (names : List String) (g : IdGen) : IfEnum × IdGen :=
  let kind := g.next
  let built := names.foldl
    (fun (acc : List (String × PyObj) × Nat) name =>
      (dinsert name ⟨acc.2, kind⟩ acc.1, acc.2 + 1))
    ([], g.next + 1)
  (⟨kind, built.1⟩, ⟨built.2⟩)

/-- Member access `enum.<name>`: read the attribute map. -/
def IfEnum.member (e : IfEnum) (name : String) : Option PyObj :=
  dlookup name e.members

/-- The value a no-dependency one-parameter provider function produces when the
engine invokes it on `iface`: its body evaluated on the single binding of its
parameter to the interface. -/
def provValue (impl : Nat → FnSpec) (fid : Nat) (iface : PyObj) : Value :=
  (impl fid).body ((impl fid).params.zip [Value.obj iface])

/-- The kwargs `bind` resolves for a dependency spec, in spec order: one entry
per interface with a provider, holding that provider's value on the interface
(stated for plain-function providers). -/
def resolvedKwargs (impl : Nat → FnSpec) (s : InjState)
    (deps : List (String × PyObj)) : List (String × Value) :=
  deps.filterMap (fun nd =>
    match chooseProvider s nd.2 with
    | some (.func fid) => some (nd.1, provValue impl fid nd.2)
    | _ => none)

/-- The dependencies `bind` records as unprovided: those whose interface has
neither an exact nor a kind entry in the table. -/
def unprovidedOf (s : InjState) (deps : List (String × PyObj)) :
    List (String × PyObj) :=
  deps.filter (fun nd => (chooseProvider s nd.2).isNone)

/-- Heap well-formedness: every allocated partial id is below the allocation
counter, so a fresh allocation never collides. -/
def WF (w : World) : Prop :=
  ∀ pid r, dlookup pid w.parts = some r → pid < w.nextPid

/-- A provider that is a plain function with a single parameter and no declared
dependencies of its own, not currently mid-resolution, and either not yet
memoized on injector `i` or memoized to a partial that captured no kwargs.
Binding such a provider always succeeds and calling the bound artifact on an
interface yields `provValue`. -/
def SimpleProvAt (impl : Nat → FnSpec) (i : Nat) (w : World) (fid : Nat) : Prop :=
  (impl fid).params.length = 1 ∧
  dlookup (Callable.func fid) w.depMap = none ∧
  Callable.func fid ∉ (w.inj i).currentlyBinding ∧
  (dlookup (Callable.func fid) (w.inj i).boundFuncs = none ∨
   ∃ pid, dlookup (Callable.func fid) (w.inj i).boundFuncs = some (.part pid) ∧
     dlookup pid w.parts = some ⟨.func fid, []⟩)

/-- A dependency interface that is either unprovided or provided by a simple
plain-function provider. -/
def SimpleDep (impl : Nat → FnSpec) (i : Nat) (w : World) (iface : PyObj) : Prop :=
  chooseProvider (w.inj i) iface = none ∨
  ∃ fid, chooseProvider (w.inj i) iface = some (.func fid) ∧ SimpleProvAt impl i w fid

/-- How the world evolves across the recursive provider binds inside one
in-flight `bind`: tables of every injector are untouched, the resolving set of
injector `i` is restored, plain-function registry entries are untouched,
allocated partials persist, well-formedness persists, and simple providers
stay simple. -/
structure Evol (impl : Nat → FnSpec) (i : Nat) (w w' : World) : Prop where
  providers : ∀ j, (w'.inj j).providers = (w.inj j).providers
  cur : (w'.inj i).currentlyBinding = (w.inj i).currentlyBinding
  funcDeps : ∀ fid, dlookup (Callable.func fid) w'.depMap
    = dlookup (Callable.func fid) w.depMap
  partsMono : ∀ pid r, dlookup pid w.parts = some r → dlookup pid w'.parts = some r
  wf : WF w → WF w'
  simple : ∀ fid, SimpleProvAt impl i w fid → SimpleProvAt impl i w' fid

/-- The world produced by a fresh (non-memoized) bind of a callable with no
registered dependency spec: the resolving set is restored, a fresh partial
capturing no kwargs is allocated, and the artifact is memoized. -/
def freshNoDeps (i : Nat) (c : Callable) (w : World) : World :=
  let s := w.inj i
  { w with
      injs := dinsert i
        { s with boundFuncs := dinsert c (Callable.part w.nextPid) s.boundFuncs }
        (dinsert i s (dinsert i { s with currentlyBinding := c :: s.currentlyBinding } w.injs)),
      parts := dinsert w.nextPid ⟨c, []⟩ w.parts,
      nextPid := w.nextPid + 1 }

/-- Keys of an association list are pairwise distinct (dict invariant). -/
def NodupKeys {α β : Type} (l : List (α × β)) : Prop :=
  (l.map Prod.fst).Nodup

deriving instance DecidableEq for Except

/-- Concrete function semantics for the example scenarios: function 1 is
`f(a, b)` returning the pair of its arguments; 2 and 3 are providers returning
`"xval"`/`"yval"`; 5 and 6 are the mutually cyclic providers (never invoked);
7 returns its injected injector; 8 is a method `bar(self, a)`; 20 is `g(a)`;
21 and 22 are the exact-entry and kind-entry providers. -/
def implS : Nat → FnSpec
  | 1 => ⟨["a", "b"], fun asg =>
      .pair ((dlookup "a" asg).getD (.str "?")) ((dlookup "b" asg).getD (.str "?"))⟩
  | 2 => ⟨["iface"], fun _ => .str "xval"⟩
  | 3 => ⟨["iface"], fun _ => .str "yval"⟩
  | 7 => ⟨["iface", "inj"], fun asg => (dlookup "inj" asg).getD (.str "?")⟩
  | 8 => ⟨["self", "a"], fun asg =>
      .pair ((dlookup "self" asg).getD (.str "?")) ((dlookup "a" asg).getD (.str "?"))⟩
  | 20 => ⟨["a"], fun asg => (dlookup "a" asg).getD (.str "?")⟩
  | 21 => ⟨["iface"], fun _ => .str "exact"⟩
  | 22 => ⟨["iface"], fun _ => .str "kind"⟩
  | _ => ⟨["iface"], fun _ => .str "other"⟩

/-- Interface `X` (provided) and `Y` (unprovided) of the partial-bind example. -/
def ifX : PyObj := ⟨10, 11⟩

def ifY : PyObj := ⟨12, 13⟩

/-- The world after declaring `f`'s dependencies `{a: X, b: Y}`. -/
def wReg : World := registerDep (.func 1) [("a", ifX), ("b", ifY)] World.init

/-- An injector (id 0) whose table provides only `X`. -/
def wParent : World := (injectorInit [] (some [(10, .func 2)]) wReg).2

example : (bindF implS 3 0 (.func 1) wParent).1 = .ok (.part 1) := by decide
example : dlookup 1 (bindF implS 3 0 (.func 1) wParent).2.parts
    = some ⟨.func 1, [("a", .str "xval")]⟩ := by decide
example : dlookup (Callable.part 1) (bindF implS 3 0 (.func 1) wParent).2.depMap
    = some [("b", ifY)] := by decide

/-- Cycle scenario: providers 5 and 6 provide interfaces `I1`/`I2` and each
declares a dependency on the other's interface. -/
def ifI1 : PyObj := ⟨20, 21⟩

def ifI2 : PyObj := ⟨22, 23⟩

def wCyc : World :=
  (injectorInit [] (some [(20, .func 5), (22, .func 6)])
    (registerDep (.func 6) [("y", ifI1)]
      (registerDep (.func 5) [("x", ifI2)] World.init))).2

/-- Exact-vs-kind scenario: interface `ifE` has a dedicated provider under its
own identity (30) and a generic provider under its kind (31). -/
def ifE : PyObj := ⟨30, 31⟩

def wExact : World :=
  (injectorInit [] (some [(30, .func 21), (31, .func 22)])
    (registerDep (.func 20) [("a", ifE)] World.init)).2

/-- Method-binding scenario: `bar` (function 8) declared to depend on `X`,
bound as methods of two distinct instances with the same class 51. -/
def wMeth : World := registerDep (.func 8) [("a", ifX)] wParent

/-- Injector self-provision scenario: provider 7 declares a dependency on the
`Injector` class and returns it; `g` (function 20) depends on `ifZ`, provided
by 7. -/
def ifInjCls : PyObj := ⟨injectorClsId, 99⟩

def ifZ : PyObj := ⟨40, 41⟩

def wParentInj : World :=
  (injectorInit [] (some [(40, .func 7)])
    (registerDep (.func 20) [("a", ifZ)]
      (registerDep (.func 7) [("inj", ifInjCls)] World.init))).2

def wChildInj : World := (specializeInj 0 [] none wParentInj).2

instance nodupKeysDecidable {α β : Type} [DecidableEq α] (l : List (α × β)) :
    Decidable (NodupKeys l) :=
  inferInstanceAs (Decidable (l.map Prod.fst).Nodup)

/-- Child scenario: the parent injector providing only `X` is specialized with
a provider for `Y`. -/
def wChild : World := (specializeInj 0 [] (some [(12, .func 3)]) wParent).2

/-- The construction loop of `make_interface_enum`, as a named fold for the
invariant proofs: each name mints a fresh instance of the shared kind and
`setattr`s it, overwriting any earlier attribute of the same name. -/
def enumFold (kind : OId) (names : List String) (acc : List (String × PyObj) × Nat) :
    List (String × PyObj) × Nat :=
  names.foldl (fun acc name => (dinsert name ⟨acc.2, kind⟩ acc.1, acc.2 + 1)) acc

/-! ## Theorems -/

theorem dlookup_dinsert_self {α β : Type} [DecidableEq α] (k : α) (v : β)
    (d : List (α × β)) : dlookup k (dinsert k v d) = some v := by
  induction d with
  | nil => simp [dinsert, dlookup]
  | cons hd tl ih =>
    by_cases h : hd.1 = k
    · simp [dinsert, dlookup, h]
    · simpa [dinsert, dlookup, h] using ih

theorem dlookup_dinsert_ne {α β : Type} [DecidableEq α] {k k' : α} (v : β)
    (d : List (α × β)) (h : k' ≠ k) :
    dlookup k' (dinsert k v d) = dlookup k' d := by
  induction d with
  | nil => simp [dinsert, dlookup, h, Ne.symm h]
  | cons hd tl ih =>
    by_cases hh : hd.1 = k
    · subst hh
      simp [dinsert, dlookup, h, Ne.symm h]
    · simp only [dinsert, if_neg hh]
      by_cases hk : hd.1 = k'
      · simp [dlookup, hk]
      · simp [dlookup, hk, ih]

theorem inj_setInj_self (w : World) (i : Nat) (s : InjState) :
    (w.setInj i s).inj i = s := by
  simp [World.inj, World.setInj, dlookup_dinsert_self]

theorem inj_setInj_ne (w : World) {i j : Nat} (s : InjState) (h : j ≠ i) :
    (w.setInj i s).inj j = w.inj j := by
  simp [World.inj, World.setInj, dlookup_dinsert_ne _ _ h]

theorem dlookup_dinsert {α β : Type} [DecidableEq α] (k k' : α) (v : β)
    (d : List (α × β)) :
    dlookup k' (dinsert k v d) = if k' = k then some v else dlookup k' d := by
  by_cases h : k' = k
  · subst h
    simp [dlookup_dinsert_self]
  · simp [h, dlookup_dinsert_ne v d h]

theorem Evol.rfl (impl : Nat → FnSpec) (i : Nat) (w : World) : Evol impl i w w :=
  ⟨fun _ => Eq.refl _, Eq.refl _, fun _ => Eq.refl _, fun _ _ h => h, id, fun _ h => h⟩

theorem Evol.trans {impl : Nat → FnSpec} {i : Nat} {w₁ w₂ w₃ : World}
    (a : Evol impl i w₁ w₂) (b : Evol impl i w₂ w₃) : Evol impl i w₁ w₃ := by
  refine ⟨fun j => ?_, ?_, fun fid => ?_, fun pid r h => ?_, fun h => ?_, fun fid h => ?_⟩
  · rw [b.providers, a.providers]
  · rw [b.cur, a.cur]
  · rw [b.funcDeps, a.funcDeps]
  · exact b.partsMono _ _ (a.partsMono _ _ h)
  · exact b.wf (a.wf h)
  · exact b.simple _ (a.simple _ h)

theorem chooseProvider_congr {s s' : InjState} (h : s.providers = s'.providers)
    (iface : PyObj) : chooseProvider s iface = chooseProvider s' iface := by
  simp [chooseProvider, h]

theorem resolvedKwargs_congr (impl : Nat → FnSpec) {s s' : InjState}
    (h : s.providers = s'.providers) (deps : List (String × PyObj)) :
    resolvedKwargs impl s deps = resolvedKwargs impl s' deps := by
  induction deps with
  | nil => simp [resolvedKwargs]
  | cons hd tl ih =>
    simp only [resolvedKwargs, List.filterMap_cons] at ih ⊢
    rw [chooseProvider_congr h, ih]

theorem unprovidedOf_congr {s s' : InjState} (h : s.providers = s'.providers)
    (deps : List (String × PyObj)) :
    unprovidedOf s deps = unprovidedOf s' deps := by
  induction deps with
  | nil => simp [unprovidedOf]
  | cons hd tl ih =>
    simp only [unprovidedOf, List.filter_cons] at ih ⊢
    rw [chooseProvider_congr h, ih]

/-- Invoking the bound artifact of a simple provider on an interface yields the
provider's value on that interface. -/
theorem callC_part_simple (impl : Nat → FnSpec) (parts : List (Nat × PartRec))
    (fuel pid fid : Nat) (iface : PyObj)
    (hrec : dlookup pid parts = some ⟨.func fid, []⟩)
    (hlen : (impl fid).params.length = 1) :
    callC impl parts (fuel + 2) (.part pid) [Value.obj iface] []
      = .ok (provValue impl fid iface) := by
  simp only [callC, hrec]
  have hne : ¬ (impl fid).params.length < 1 := by omega
  simp [callFn, mergeKw, dictUpdate, provValue, hne, List.drop_eq_nil_of_le, hlen]

theorem depMap_setInj (w : World) (i : Nat) (s : InjState) : (w.setInj i s).depMap = w.depMap := rfl

theorem freshNoDeps_inj_self (i : Nat) (c : Callable) (w : World) :
    (freshNoDeps i c w).inj i
      = { w.inj i with
            boundFuncs := dinsert c (Callable.part w.nextPid) (w.inj i).boundFuncs } := by
  simp [freshNoDeps, World.inj, dlookup_dinsert_self]

theorem freshNoDeps_inj_ne {i j : Nat} (c : Callable) (w : World) (h : j ≠ i) :
    (freshNoDeps i c w).inj j = w.inj j := by
  simp [freshNoDeps, World.inj, dlookup_dinsert_ne _ _ h]

theorem freshNoDeps_depMap (i : Nat) (c : Callable) (w : World) :
    (freshNoDeps i c w).depMap = w.depMap := rfl

theorem freshNoDeps_parts (i : Nat) (c : Callable) (w : World) :
    (freshNoDeps i c w).parts = dinsert w.nextPid ⟨c, []⟩ w.parts := rfl

theorem freshNoDeps_nextPid (i : Nat) (c : Callable) (w : World) :
    (freshNoDeps i c w).nextPid = w.nextPid + 1 := rfl

theorem bindF_fresh_nodeps (impl : Nat → FnSpec) (fuel i : Nat) (c : Callable) (w : World)
    (hpeel : peel c = c)
    (hm : dlookup c (w.inj i).boundFuncs = none)
    (hcur : c ∉ (w.inj i).currentlyBinding)
    (hdep : dlookup c w.depMap = none) :
    bindF impl (fuel + 1) i c w = (.ok (.part w.nextPid), freshNoDeps i c w) := by
  simp only [bindF, hm, hpeel]
  rw [if_neg hcur]
  simp only [depMap_setInj, hdep, Option.getD_none, bindArgs]
  simp only [inj_setInj_self, List.erase_cons_head, List.isEmpty_nil, if_pos]
  simp [freshNoDeps, World.setInj, World.inj, dlookup_dinsert_self]

theorem bind_simple (impl : Nat → FnSpec) (fuel i fid : Nat) (w : World)
    (h : SimpleProvAt impl i w fid) (hwf : WF w) :
    ∃ a w', bindF impl (fuel + 1) i (.func fid) w = (.ok a, w') ∧
      (∃ pid, a = .part pid ∧ dlookup pid w'.parts = some ⟨.func fid, []⟩) ∧
      Evol impl i w w' ∧ WF w' := by
  obtain ⟨hlen, hdep, hcur, hmemo⟩ := h
  rcases hmemo with hm | ⟨pid, hm, hrec⟩
  · -- fresh bind
    have hwf' : WF (freshNoDeps i (.func fid) w) := by
      intro pid' r hlk
      rw [freshNoDeps_parts, dlookup_dinsert] at hlk
      rw [freshNoDeps_nextPid]
      split at hlk
      · omega
      · have := hwf pid' r hlk
        omega
    refine ⟨.part w.nextPid, freshNoDeps i (.func fid) w,
      bindF_fresh_nodeps impl fuel i (.func fid) w rfl hm hcur hdep, ?_, ?_, hwf'⟩
    · refine ⟨w.nextPid, rfl, ?_⟩
      rw [freshNoDeps_parts]
      exact dlookup_dinsert_self _ _ _
    · constructor
      case providers =>
        intro j
        by_cases hj : j = i
        · subst hj
          rw [freshNoDeps_inj_self]
        · rw [freshNoDeps_inj_ne _ _ hj]
      case cur => rw [freshNoDeps_inj_self]
      case funcDeps => intro fid'; rfl
      case partsMono =>
        intro pid' r hlk
        have hlt := hwf pid' r hlk
        rw [freshNoDeps_parts, dlookup_dinsert_ne _ _ (by omega)]
        exact hlk
      case wf => intro _; exact hwf'
      case simple =>
        intro fid' hsp
        obtain ⟨hl1, hd1, hc1, hb1⟩ := hsp
        refine ⟨hl1, hd1, ?_, ?_⟩
        · rw [freshNoDeps_inj_self]
          exact hc1
        · rw [freshNoDeps_inj_self]
          by_cases hff : fid' = fid
          · subst hff
            right
            refine ⟨w.nextPid, ?_, ?_⟩
            · exact dlookup_dinsert_self _ _ _
            · rw [freshNoDeps_parts]
              exact dlookup_dinsert_self _ _ _
          · have hne : Callable.func fid' ≠ Callable.func fid := by simp [hff]
            rcases hb1 with hb1 | ⟨pid', hb1, hr1⟩
            · left
              rw [dlookup_dinsert_ne _ _ hne]
              exact hb1
            · right
              refine ⟨pid', ?_, ?_⟩
              · rw [dlookup_dinsert_ne _ _ hne]
                exact hb1
              · have hlt := hwf pid' _ hr1
                rw [freshNoDeps_parts, dlookup_dinsert_ne _ _ (by omega)]
                exact hr1
  · -- memoized
    refine ⟨.part pid, w, ?_, ⟨pid, rfl, hrec⟩, Evol.rfl impl i w, hwf⟩
    simp [bindF, hm]

theorem bindArgs_simple (impl : Nat → FnSpec) (fuel i : Nat)
    (deps : List (String × PyObj)) :
    ∀ (w : World), WF w → (∀ nd ∈ deps, SimpleDep impl i w nd.2) →
    ∃ w', bindArgs impl (fun c wa => bindF impl (fuel + 2) i c wa) (fuel + 2) i deps w
        = (.ok (resolvedKwargs impl (w.inj i) deps, unprovidedOf (w.inj i) deps), w')
      ∧ Evol impl i w w' ∧ WF w' := by
  induction deps with
  | nil =>
    intro w hwf _
    exact ⟨w, by simp [bindArgs, resolvedKwargs, unprovidedOf], Evol.rfl impl i w, hwf⟩
  | cons nd rest ih =>
    intro w hwf hdeps
    obtain ⟨name, iface⟩ := nd
    rcases hdeps _ (List.mem_cons_self _ _) with hnone | ⟨fid, hcp, hsp⟩
    · -- unprovided head
      obtain ⟨w', hrun, hev, hwf'⟩ := ih w hwf (fun nd hm => hdeps nd (List.mem_cons_of_mem _ hm))
      refine ⟨w', ?_, hev, hwf'⟩
      simp only [bindArgs, hnone, hrun]
      simp [resolvedKwargs, unprovidedOf, hnone]
    · -- simple provider head
      obtain ⟨a, w₁, hbind, ⟨pid, ha, hrec⟩, hev₁, hwf₁⟩ :=
        bind_simple impl (fuel + 1) i fid w hsp hwf
      subst ha
      have hcall := callC_part_simple impl w₁.parts fuel pid fid iface hrec hsp.1
      have hdeps₁ : ∀ nd ∈ rest, SimpleDep impl i w₁ nd.2 := by
        intro nd hm
        rcases hdeps nd (List.mem_cons_of_mem _ hm) with hn | ⟨fid', hcp', hsp'⟩
        · left
          rw [chooseProvider_congr (hev₁.providers i), hn]
        · right
          exact ⟨fid', by rw [chooseProvider_congr (hev₁.providers i)]; exact hcp',
            hev₁.simple _ hsp'⟩
      obtain ⟨w₂, hrun, hev₂, hwf₂⟩ := ih w₁ hwf₁ hdeps₁
      refine ⟨w₂, ?_, hev₁.trans hev₂, hwf₂⟩
      simp only [bindArgs, hcp, hbind, hcall, hrun]
      rw [resolvedKwargs_congr impl (hev₁.providers i) rest,
        unprovidedOf_congr (hev₁.providers i) rest]
      simp [resolvedKwargs, unprovidedOf, hcp]

/-- C1: for a callable whose declared dependency spec maps some parameters to
interfaces with a (simple plain-function) provider in the table — exact or
kind entry — and the others to interfaces with neither entry, `bind` does not
fail: it returns a partial artifact whose captured kwargs pre-fill exactly the
resolvable parameters with the value of invoking the bound provider on the
interface, leave the unresolvable ones open, and a fresh dependency spec
mapping the unprovided names to their original interfaces is declared on the
artifact itself. -/
theorem c1_partial_bind_prefills_and_defers (impl : Nat → FnSpec) (fuel i : Nat) (f : Callable) (w : World)
    (deps : List (String × PyObj))
    (hwf : WF w)
    (hmemo : dlookup f (w.inj i).boundFuncs = none)
    (hcur : peel f ∉ (w.inj i).currentlyBinding)
    (hdeps : dlookup (peel f) w.depMap = some deps)
    (hres : ∀ nd ∈ deps, chooseProvider (w.inj i) nd.2 = none ∨
      ∃ fid, chooseProvider (w.inj i) nd.2 = some (.func fid) ∧ SimpleProvAt impl i w fid ∧
        Callable.func fid ≠ peel f)
    (hunp : unprovidedOf (w.inj i) deps ≠ []) :
    ∃ pid w', bindF impl (fuel + 3) i f w = (.ok (.part pid), w') ∧
      dlookup pid w'.parts = some ⟨f, resolvedKwargs impl (w.inj i) deps⟩ ∧
      dlookup (Callable.part pid) w'.depMap = some (unprovidedOf (w.inj i) deps) ∧
      dlookup f (w'.inj i).boundFuncs = some (.part pid) := by
  have hpv : ((w.setInj i ⟨(w.inj i).providers, peel f :: (w.inj i).currentlyBinding,
      (w.inj i).boundFuncs⟩).inj i).providers = (w.inj i).providers := by
    rw [inj_setInj_self]
  have hwf1 : WF (w.setInj i ⟨(w.inj i).providers, peel f :: (w.inj i).currentlyBinding,
      (w.inj i).boundFuncs⟩) := hwf
  have hdeps1 : ∀ nd ∈ deps, SimpleDep impl i (w.setInj i ⟨(w.inj i).providers,
      peel f :: (w.inj i).currentlyBinding, (w.inj i).boundFuncs⟩) nd.2 := by
    intro nd hm
    rcases hres nd hm with hn | ⟨fid, hcp, hsp, hne⟩
    · left
      rw [chooseProvider_congr hpv]
      exact hn
    · right
      refine ⟨fid, by rw [chooseProvider_congr hpv]; exact hcp, ?_⟩
      obtain ⟨hl, hd, hc, hb⟩ := hsp
      refine ⟨hl, hd, ?_, ?_⟩
      · rw [inj_setInj_self]
        intro hmem
        rcases List.mem_cons.mp hmem with h | h
        · exact hne h
        · exact hc h
      · rcases hb with hb | ⟨pid, hb, hr⟩
        · left
          rw [inj_setInj_self]
          exact hb
        · right
          exact ⟨pid, by rw [inj_setInj_self]; exact hb, hr⟩
  obtain ⟨w₂, hrun, hev, hwf₂⟩ := bindArgs_simple impl fuel i deps _ hwf1 hdeps1
  have hrun' : bindArgs impl (fun c wa => bindF impl (fuel + 2) i c wa) (fuel + 2) i deps
      (w.setInj i ⟨(w.inj i).providers, peel f :: (w.inj i).currentlyBinding,
        (w.inj i).boundFuncs⟩)
      = (.ok (resolvedKwargs impl (w.inj i) deps, unprovidedOf (w.inj i) deps), w₂) := by
    rw [hrun, resolvedKwargs_congr impl hpv, unprovidedOf_congr hpv]
  have hcur2 : (w₂.inj i).currentlyBinding = peel f :: (w.inj i).currentlyBinding := by
    rw [hev.cur, inj_setInj_self]
  have hemp : (unprovidedOf (w.inj i) deps).isEmpty = false := by
    cases h : unprovidedOf (w.inj i) deps with
    | nil => exact absurd h hunp
    | cons a l => rfl
  rw [show fuel + 3 = (fuel + 2) + 1 from rfl, bindF.eq_2]
  simp only [hmemo]
  rw [if_neg hcur]
  simp only [depMap_setInj, hdeps, Option.getD_some, hrun']
  simp only [hcur2, List.erase_cons_head, hemp, Bool.false_eq_true, if_false]
  refine ⟨_, _, rfl, ?_, ?_, ?_⟩
  · show dlookup w₂.nextPid (dinsert w₂.nextPid
      ⟨f, resolvedKwargs impl (w.inj i) deps⟩ w₂.parts) = _
    exact dlookup_dinsert_self _ _ _
  · show dlookup (Callable.part w₂.nextPid) (dinsert (Callable.part w₂.nextPid)
      (unprovidedOf (w.inj i) deps) _) = _
    exact dlookup_dinsert_self _ _ _
  · rw [inj_setInj_self]
    exact dlookup_dinsert_self _ _ _

theorem dlookup_append {α β : Type} [DecidableEq α] (k : α) (a b : List (α × β)) :
    dlookup k (a ++ b)
      = match dlookup k a with
        | some v => some v
        | none => dlookup k b := by
  induction a with
  | nil => simp [dlookup]
  | cons hd tl ih =>
    by_cases h : hd.1 = k
    · simp [dlookup, h]
    · simpa [dlookup, h] using ih

theorem dlookup_eq_none_of_not_mem {α β : Type} [DecidableEq α] (k : α)
    (l : List (α × β)) (h : k ∉ l.map Prod.fst) : dlookup k l = none := by
  induction l with
  | nil => rfl
  | cons hd tl ih =>
    simp only [List.map_cons, List.mem_cons] at h
    push_neg at h
    have hne : hd.1 ≠ k := fun hh => h.1 hh.symm
    simp only [dlookup, if_neg hne]
    exact ih h.2

theorem dlookup_reverse_of_nodupKeys {α β : Type} [DecidableEq α] (k : α)
    (l : List (α × β)) (h : NodupKeys l) : dlookup k l.reverse = dlookup k l := by
  induction l with
  | nil => rfl
  | cons hd tl ih =>
    simp only [NodupKeys, List.map_cons, List.nodup_cons] at h
    rw [List.reverse_cons, dlookup_append]
    by_cases hk : hd.1 = k
    · subst hk
      rw [ih h.2, dlookup_eq_none_of_not_mem _ _ h.1]
      simp [dlookup]
    · rw [ih h.2]
      cases hv : dlookup k tl with
      | none => simp [dlookup, hk, hv]
      | some v => simp [dlookup, hk, hv]

theorem mem_keys_dinsert {α β : Type} [DecidableEq α] (x k : α) (v : β)
    (l : List (α × β)) (h : x ∈ (dinsert k v l).map Prod.fst) :
    x ∈ l.map Prod.fst ∨ x = k := by
  induction l with
  | nil =>
    simp only [dinsert, List.map_cons, List.map_nil, List.mem_cons,
      List.not_mem_nil, or_false] at h
    exact Or.inr h
  | cons hd tl ih =>
    by_cases hk : hd.1 = k
    · rw [show dinsert k v (hd :: tl) = (k, v) :: tl by simp [dinsert, hk]] at h
      simp only [List.map_cons, List.mem_cons] at h
      rcases h with h | h
      · exact Or.inr h
      · exact Or.inl (by simp only [List.map_cons, List.mem_cons]; exact Or.inr h)
    · rw [show dinsert k v (hd :: tl) = hd :: dinsert k v tl by simp [dinsert, hk]] at h
      simp only [List.map_cons, List.mem_cons] at h
      rcases h with h | h
      · exact Or.inl (by simp only [List.map_cons, List.mem_cons]; exact Or.inl h)
      · rcases ih h with hh | hh
        · exact Or.inl (by simp only [List.map_cons, List.mem_cons]; exact Or.inr hh)
        · exact Or.inr hh

theorem nodupKeys_dinsert {α β : Type} [DecidableEq α] (k : α) (v : β)
    (l : List (α × β)) (h : NodupKeys l) : NodupKeys (dinsert k v l) := by
  induction l with
  | nil => simp [NodupKeys, dinsert]
  | cons hd tl ih =>
    simp only [NodupKeys, List.map_cons, List.nodup_cons] at h
    by_cases hk : hd.1 = k
    · rw [show dinsert k v (hd :: tl) = (k, v) :: tl by simp [dinsert, hk]]
      simp only [NodupKeys, List.map_cons, List.nodup_cons]
      exact ⟨by rw [← hk]; exact h.1, h.2⟩
    · rw [show dinsert k v (hd :: tl) = hd :: dinsert k v tl by simp [dinsert, hk]]
      simp only [NodupKeys, List.map_cons, List.nodup_cons]
      refine ⟨fun hmem => ?_, ih h.2⟩
      rcases mem_keys_dinsert _ _ _ _ hmem with hh | hh
      · exact h.1 hh
      · exact hk hh

theorem nodupKeys_dictUpdate {α β : Type} [DecidableEq α] (base upd : List (α × β))
    (h : NodupKeys base) : NodupKeys (dictUpdate base upd) := by
  induction upd generalizing base with
  | nil => simpa [dictUpdate] using h
  | cons hd tl ih =>
    simp only [dictUpdate, List.foldl_cons]
    exact ih _ (nodupKeys_dinsert _ _ _ h)

theorem dlookup_dictUpdate {α β : Type} [DecidableEq α] (k : α)
    (base upd : List (α × β)) :
    dlookup k (dictUpdate base upd)
      = match dlookup k upd.reverse with
        | some v => some v
        | none => dlookup k base := by
  induction upd using List.reverseRecOn with
  | nil => simp [dictUpdate, dlookup]
  | append_singleton l x ih =>
    rw [List.reverse_append]
    simp only [dictUpdate, List.foldl_append, List.foldl_cons, List.foldl_nil] at ih ⊢
    rw [dlookup_dinsert]
    by_cases hk : k = x.1
    · simp [dlookup, hk]
    · rw [if_neg hk, ih]
      have hxk : ¬ x.1 = k := fun h => hk h.symm
      simp only [List.reverse_singleton, List.singleton_append, dlookup, if_neg hxk]
      rfl

/-- A dict built by overlaying `upd` on `base` (`base.update(upd)`) looks up as
the override map first, then the base, when the override's keys are unique. -/
theorem dlookup_dictUpdate_nodup {α β : Type} [DecidableEq α] (k : α)
    (base upd : List (α × β)) (hb : NodupKeys upd) :
    dlookup k (dictUpdate base upd)
      = match dlookup k upd with
        | some v => some v
        | none => dlookup k base := by
  rw [dlookup_dictUpdate, dlookup_reverse_of_nodupKeys _ _ hb]

/-- The resolution loop touches no injector other than the one given to the
recursive binder. -/
theorem bindArgs_frame (impl : Nat → FnSpec)
    (bnd : Callable → World → (Except Err Callable) × World) (F i j : Nat)
    (hbnd : ∀ c w, ((bnd c w).2).inj j = w.inj j)
    (deps : List (String × PyObj)) :
    ∀ w : World, ((bindArgs impl bnd F i deps w).2).inj j = w.inj j := by
  induction deps with
  | nil => intro w; rfl
  | cons nd rest ih =>
    intro w
    obtain ⟨name, iface⟩ := nd
    simp only [bindArgs]
    cases hc : chooseProvider (w.inj i) iface with
    | none =>
      rcases hr : bindArgs impl bnd F i rest w with ⟨res, w'⟩
      have := ih w
      rw [hr] at this
      cases res with
      | ok v => simpa [hr] using this
      | error e => simpa [hr] using this
    | some p =>
      rcases hb : bnd p w with ⟨res, w₁⟩
      have hb' : w₁.inj j = w.inj j := by
        have := hbnd p w
        rw [hb] at this
        exact this
      cases res with
      | error e => simp [hb, hb']
      | ok bp =>
        cases hcall : callC impl w₁.parts F bp [.obj iface] [] with
        | error e => simp [hb, hcall, hb']
        | ok v =>
          rcases hr : bindArgs impl bnd F i rest w₁ with ⟨res₂, w₂⟩
          have h2 := ih w₁
          rw [hr] at h2
          cases res₂ with
          | ok pr =>
            obtain ⟨kws, unps⟩ := pr
            simp [hb, hcall, hr, h2, hb']
          | error e => simp [hb, hcall, hr, h2, hb']

/-- `bind` on injector `i` never alters any other injector's state. -/
theorem bindF_frame (impl : Nat → FnSpec) :
    ∀ (fuel i j : Nat), j ≠ i → ∀ (f : Callable) (w : World),
    ((bindF impl fuel i f w).2).inj j = w.inj j := by
  intro fuel
  induction fuel with
  | zero => intro i j hj f w; rfl
  | succ fuel ih =>
    intro i j hj f w
    rw [bindF.eq_2]
    cases hm : dlookup f (w.inj i).boundFuncs with
    | some cached => rfl
    | none =>
      simp only []
      by_cases hcur : peel f ∈ (w.inj i).currentlyBinding
      · rw [if_pos hcur]
        cases hj2 : joinCallables (w.inj i).currentlyBinding with
        | error e => rfl
        | ok msg => rfl
      · rw [if_neg hcur]
        have hframe := bindArgs_frame impl (fun c wa => bindF impl fuel i c wa) fuel i j
          (fun c wa => ih i j hj c wa)
          ((dlookup (peel f) (w.setInj i ⟨(w.inj i).providers,
            peel f :: (w.inj i).currentlyBinding, (w.inj i).boundFuncs⟩).depMap).getD [])
          (w.setInj i ⟨(w.inj i).providers, peel f :: (w.inj i).currentlyBinding,
            (w.inj i).boundFuncs⟩)
        rcases hr : bindArgs impl (fun c wa => bindF impl fuel i c wa) fuel i
            ((dlookup (peel f) (w.setInj i ⟨(w.inj i).providers,
              peel f :: (w.inj i).currentlyBinding, (w.inj i).boundFuncs⟩).depMap).getD [])
            (w.setInj i ⟨(w.inj i).providers, peel f :: (w.inj i).currentlyBinding,
              (w.inj i).boundFuncs⟩) with ⟨res, w₂⟩
        rw [hr] at hframe
        have hw1 : w₂.inj j = w.inj j := by
          rw [hframe, inj_setInj_ne _ _ hj]
        cases res with
        | error e => simpa [hr] using hw1
        | ok pr =>
          obtain ⟨kwargs, unprovided⟩ := pr
          simp only [hr]
          rw [inj_setInj_ne _ _ hj]
          by_cases hemp : unprovided.isEmpty
          · rw [if_pos hemp]
            show (w₂.setInj i ⟨(w₂.inj i).providers,
              (w₂.inj i).currentlyBinding.erase (peel f), (w₂.inj i).boundFuncs⟩).inj j
              = w.inj j
            rw [inj_setInj_ne _ _ hj]
            exact hw1
          · rw [if_neg hemp]
            show (w₂.setInj i ⟨(w₂.inj i).providers,
              (w₂.inj i).currentlyBinding.erase (peel f), (w₂.inj i).boundFuncs⟩).inj j
              = w.inj j
            rw [inj_setInj_ne _ _ hj]
            exact hw1

/-- A successful `bind` always leaves its artifact in the memo, keyed by the
callable exactly as it was given. -/
theorem bindF_ok_memo (impl : Nat → FnSpec) (fuel i : Nat) (f a : Callable)
    (w w' : World) (h : bindF impl (fuel + 1) i f w = (.ok a, w')) :
    dlookup f ((w'.inj i)).boundFuncs = some a := by
  rw [bindF.eq_2] at h
  cases hm : dlookup f (w.inj i).boundFuncs with
  | some cached =>
    rw [hm] at h
    simp only [] at h
    injection h with h1 h2
    injection h1 with h1
    subst h1
    subst h2
    exact hm
  | none =>
    rw [hm] at h
    simp only [] at h
    by_cases hcur : peel f ∈ (w.inj i).currentlyBinding
    · rw [if_pos hcur] at h
      cases hj : joinCallables (w.inj i).currentlyBinding with
      | error e =>
        rw [hj] at h
        simp only [] at h
        injection h with h1 h2
        cases h1
      | ok msg =>
        rw [hj] at h
        simp only [] at h
        injection h with h1 h2
        cases h1
    · rw [if_neg hcur] at h
      rcases hr : bindArgs impl (fun c wa => bindF impl fuel i c wa) fuel i
          ((dlookup (peel f) (w.setInj i ⟨(w.inj i).providers,
            peel f :: (w.inj i).currentlyBinding, (w.inj i).boundFuncs⟩).depMap).getD [])
          (w.setInj i ⟨(w.inj i).providers, peel f :: (w.inj i).currentlyBinding,
            (w.inj i).boundFuncs⟩) with ⟨res, w₂⟩
      rw [hr] at h
      cases res with
      | error e =>
        simp only [] at h
        injection h with h1 h2
        cases h1
      | ok pr =>
        obtain ⟨kwargs, unprovided⟩ := pr
        simp only [] at h
        injection h with h1 h2
        injection h1 with h1
        subst h1
        subst h2
        by_cases hemp : unprovided.isEmpty
        · rw [if_pos hemp, inj_setInj_self]
          exact dlookup_dinsert_self _ _ _
        · rw [if_neg hemp, inj_setInj_self]
          exact dlookup_dinsert_self _ _ _

/-- C2: during `bind`'s provider lookup, an entry keyed by the interface's
exact identity is used even when a kind-level entry also exists; the kind
entry is consulted only when there is no exact entry.  Concretely, binding a
callable depending on `ifE` against a table holding both entries resolves the
argument with the exact provider's value. -/
theorem c2_exact_identity_beats_kind :
    (∀ (s : InjState) (iface : PyObj) (pe : Callable),
        dlookup iface.oid s.providers = some pe → chooseProvider s iface = some pe) ∧
    (∀ (s : InjState) (iface : PyObj),
        dlookup iface.oid s.providers = none →
          chooseProvider s iface = dlookup iface.cls s.providers) ∧
    (dlookup ifE.oid (wExact.inj 0).providers = some (.func 21) ∧
     dlookup ifE.cls (wExact.inj 0).providers = some (.func 22) ∧
     (bindF implS 3 0 (.func 20) wExact).1 = .ok (.part 1) ∧
     dlookup 1 (bindF implS 3 0 (.func 20) wExact).2.parts
       = some ⟨.func 20, [("a", .str "exact")]⟩) := by
  refine ⟨?_, ?_, by decide⟩
  · intro s iface pe h
    simp [chooseProvider, h]
  · intro s iface h
    simp [chooseProvider, h]

/-- C2 witness: the first clause applied to the concrete two-entry table. -/
theorem c2_witness : chooseProvider (wExact.inj 0) ifE = some (.func 21) :=
  c2_exact_identity_beats_kind.1 (wExact.inj 0) ifE (.func 21) (by decide)

/-- C3 (code bug): when resolution reaches the cycle between providers 5 and 6,
the code attempts to raise `DependencyCycleError`, but building its message
with `", ".join(self.currently_binding)` joins function objects and itself
raises `TypeError`; the bind call therefore fails with `TypeError` and no
error naming the callables is ever produced. -/
theorem c3_cycle_error_construction_fails :
    (bindF implS 10 0 (.func 5) wCyc).1 = .error .typeError ∧
    joinCallables [Callable.func 6, Callable.func 5] = .error .typeError := by
  refine ⟨by decide, rfl⟩

/-- C5 (code bug): the cycle failure propagates without removing the
identities the failed call added to `currently_binding` (the source has no
`try/finally`); the set that was empty before the call still holds providers
5 and 6 afterwards, and a subsequent bind of the same callable on the same
injector fails again even though its first failure should have reset the
state; an unrelated callable still binds. -/
theorem c5_failure_leaves_resolving_set_dirty :
    (wCyc.inj 0).currentlyBinding = [] ∧
    (bindF implS 10 0 (.func 5) wCyc).1 = .error .typeError ∧
    ((bindF implS 10 0 (.func 5) wCyc).2.inj 0).currentlyBinding
      = [.func 6, .func 5] ∧
    (bindF implS 10 0 (.func 5) (bindF implS 10 0 (.func 5) wCyc).2).1
      = .error .typeError ∧
    (bindF implS 10 0 (.func 9) (bindF implS 10 0 (.func 5) wCyc).2).1
      = .ok (.part 0) := by
  decide

/-- C8 counterexample: called with exactly one positional target, the
declaration operation registers the mapping but returns `None` — not the
target unchanged as the claim states. -/
theorem c8_direct_call_returns_none :
    (dependencies [.func 90] [("a", ifX)] World.init).1 = .ok .retNone ∧
    ((dependencies [.func 90] [("a", ifX)] World.init).2).depMap
      = [(.func 90, [("a", ifX)])] ∧
    ¬ (dependencies [.func 90] [("a", ifX)] World.init).1
        = .ok (.retValue (.func 90)) := by
  decide

/-- C8 (amended): with one positional target the operation registers the
mapping and returns `None`; with zero targets it returns the registration
closure, which applied to a callable registers the mapping and returns that
callable unchanged; with two or more targets it raises `TypeError`. -/
theorem c8_amended_declaration_shapes :
    (∀ (c : Callable) (m : List (String × PyObj)) (w : World),
        dependencies [c] m w = (.ok .retNone, registerDep c m w)) ∧
    (∀ (m : List (String × PyObj)) (w : World),
        dependencies [] m w = (.ok (.retRegister m), w)) ∧
    (∀ (c : Callable) (m : List (String × PyObj)) (w : World),
        applyRegister m c w = (c, registerDep c m w)) ∧
    (∀ (args : List Callable) (m : List (String × PyObj)) (w : World),
        2 ≤ args.length → dependencies args m w = (.error .typeError, w)) := by
  refine ⟨fun c m w => rfl, fun m w => rfl, fun c m w => rfl, ?_⟩
  intro args m w h
  match args with
  | [] => simp at h
  | [a] => simp at h
  | a :: b :: rest => rfl

/-- C8 witness: the amended clauses at concrete inputs. -/
theorem c8_witness :
    dependencies [.func 90, .func 91] [] World.init = (.error .typeError, World.init) :=
  c8_amended_declaration_shapes.2.2.2 [.func 90, .func 91] [] World.init (by decide)

/-- C10 counterexample: `specialize` with no local-providers override still
replaces the parent's entry for the `Injector` class key — the child's
constructor overwrites it with the child's own self-provider — refuting
"only entries passed as the local-providers override mapping actually
replace the parent's entries". -/
theorem c10_self_entry_replaced_without_locals :
    dlookup injectorClsId (((injectorInit [] none World.init).2).inj 0).providers
      = some (.injSelf 0) ∧
    (specializeInj 0 [] none (injectorInit [] none World.init).2).1 = 1 ∧
    dlookup injectorClsId
      (((specializeInj 0 [] none (injectorInit [] none World.init).2).2).inj 1).providers
      = some (.injSelf 1) ∧
    ¬ Callable.injSelf 1 = Callable.injSelf 0 := by
  decide

/-- C4: a bind whose callable is already memoized returns the cached artifact
and leaves the world unchanged; any successful bind memoizes, so a second bind
of the same callable returns the identical artifact and world; the memo key is
the callable as given, so bound methods of two distinct instances of the same
class produce two distinct artifacts. -/
theorem c4_bind_memoized_idempotent :
    (∀ (impl : Nat → FnSpec) (fuel i : Nat) (f a : Callable) (w : World),
        dlookup f (w.inj i).boundFuncs = some a →
        bindF impl (fuel + 1) i f w = (.ok a, w)) ∧
    (∀ (impl : Nat → FnSpec) (fuel fuel' i : Nat) (f a : Callable) (w w' : World),
        bindF impl (fuel + 1) i f w = (.ok a, w') →
        bindF impl (fuel' + 1) i f w' = (.ok a, w')) ∧
    ((bindF implS 10 0 (.method 8 ⟨50, 51⟩) wMeth).1 = .ok (.part 1) ∧
     (bindF implS 10 0 (.method 8 ⟨52, 51⟩)
        (bindF implS 10 0 (.method 8 ⟨50, 51⟩) wMeth).2).1 = .ok (.part 2) ∧
     ¬ Callable.part 1 = Callable.part 2 ∧
     bindF implS 10 0 (.method 8 ⟨50, 51⟩)
        (bindF implS 10 0 (.method 8 ⟨52, 51⟩)
          (bindF implS 10 0 (.method 8 ⟨50, 51⟩) wMeth).2).2
       = (.ok (.part 1),
          (bindF implS 10 0 (.method 8 ⟨52, 51⟩)
            (bindF implS 10 0 (.method 8 ⟨50, 51⟩) wMeth).2).2)) := by
  refine ⟨?_, ?_, by decide⟩
  · intro impl fuel i f a w h
    simp [bindF, h]
  · intro impl fuel fuel' i f a w w' h
    have hm := bindF_ok_memo impl fuel i f a w w' h
    simp [bindF, hm]

/-- C4 witness: rebinding `f` after a first successful bind returns the
identical artifact without touching the world. -/
theorem c4_witness :
    bindF implS 10 0 (.func 1) (bindF implS 3 0 (.func 1) wParent).2
      = (.ok (.part 1), (bindF implS 3 0 (.func 1) wParent).2) :=
  c4_bind_memoized_idempotent.1 implS 9 0 (.func 1) (.part 1)
    (bindF implS 3 0 (.func 1) wParent).2 (by decide)

/-- C7: every constructed injector's table maps the `Injector` class key to a
self-provider returning that very injector (the entry is installed last, so it
also overrides anything inherited through `specialize`); invoking that
provider yields the injector itself; and a provider depending on the
`Injector` class receives, during a bind on a specialized child, the child
instance and not the parent. -/
theorem c7_injector_provides_itself :
    (∀ (psets : List ProviderSetV) (lp : Option (List (OId × Callable))) (w : World),
        dlookup injectorClsId
          (((injectorInit psets lp w).2).inj (injectorInit psets lp w).1).providers
          = some (.injSelf (injectorInit psets lp w).1) ∧
        (injectorInit psets lp w).1 = w.nextInj) ∧
    (∀ (impl : Nat → FnSpec) (parts : List (Nat × PartRec)) (F i : Nat) (v : Value),
        callC impl parts (F + 1) (.injSelf i) [v] [] = .ok (.inj i)) ∧
    (∀ (pI : Nat) (psets : List ProviderSetV) (lp : Option (List (OId × Callable)))
        (w : World),
        dlookup injectorClsId
          (((specializeInj pI psets lp w).2).inj (specializeInj pI psets lp w).1).providers
          = some (.injSelf (specializeInj pI psets lp w).1)) ∧
    ((bindF implS 10 1 (.func 20) wChildInj).1 = .ok (.part 2) ∧
     dlookup 2 (bindF implS 10 1 (.func 20) wChildInj).2.parts
       = some ⟨.func 20, [("a", Value.inj 1)]⟩ ∧
     dlookup 2 (bindF implS 10 0 (.func 20) wParentInj).2.parts
       = some ⟨.func 20, [("a", Value.inj 0)]⟩) := by
  refine ⟨?_, ?_, ?_, by decide⟩
  · intro psets lp w
    refine ⟨?_, rfl⟩
    simp [injectorInit, World.inj, dlookup_dinsert_self]
  · intro impl parts F i v
    simp [callC]
  · intro pI psets lp w
    simp [specializeInj, injectorInit, World.inj, dlookup_dinsert_self]

/-- In a freshly constructed injector's table, any key other than the
`Injector` class key whose binding appears in the `local_providers` mapping
resolves to that binding: the local-providers overlay is applied after the
provider-set records, and only the self-provider entry comes later. -/
theorem injectorInit_lookup_of_local (psets : List ProviderSetV)
    (l : List (OId × Callable)) (w : World) (k : OId)
    (hk : k ≠ injectorClsId) (hnl : NodupKeys l) (q : Callable)
    (hq : dlookup k l = some q) :
    dlookup k (((injectorInit psets (some l) w).2).inj
      (injectorInit psets (some l) w).1).providers = some q := by
  simp only [injectorInit, World.inj, World.setInj]
  rw [dlookup_dinsert_self]
  simp only [Option.getD_some]
  rw [dlookup_dinsert_ne _ _ hk, dlookup_dictUpdate_nodup _ _ _ hnl, hq]

/-- C10 (amended): in `specialize`, provider-set records are inserted before
the parent snapshot (overlaid with the local-providers mapping) is applied,
so for every table key other than the `Injector` class key — whose entry the
child constructor always overwrites with the child's own self-provider — a
local-providers binding wins, and otherwise the parent's binding wins over
anything a provider set passed to `specialize` contributed. -/
theorem c10_amended_parent_beats_specialize_psets :
    ∀ (pI : Nat) (psets : List ProviderSetV) (lp : List (OId × Callable)) (w : World)
      (k : OId),
      k ≠ injectorClsId →
      NodupKeys (w.inj pI).providers →
      NodupKeys lp →
      (∀ q, dlookup k lp = some q →
        dlookup k (((specializeInj pI psets (some lp) w).2).inj
          (specializeInj pI psets (some lp) w).1).providers = some q) ∧
      (∀ pe, dlookup k lp = none → dlookup k (w.inj pI).providers = some pe →
        dlookup k (((specializeInj pI psets (some lp) w).2).inj
          (specializeInj pI psets (some lp) w).1).providers = some pe) := by
  intro pI psets lp w k hk hnd hnlp
  have hspec : specializeInj pI psets (some lp) w
      = injectorInit psets (some (dictUpdate (w.inj pI).providers lp)) w := rfl
  have hnm : NodupKeys (dictUpdate (w.inj pI).providers lp) :=
    nodupKeys_dictUpdate _ _ hnd
  constructor
  · intro q hq
    rw [hspec]
    refine injectorInit_lookup_of_local _ _ _ _ hk hnm q ?_
    rw [dlookup_dictUpdate_nodup _ _ _ hnlp, hq]
  · intro pe h0 hpe
    rw [hspec]
    refine injectorInit_lookup_of_local _ _ _ _ hk hnm pe ?_
    rw [dlookup_dictUpdate_nodup _ _ _ hnlp, h0, hpe]

/-- C10 witness: a provider set passed to `specialize` also provides interface
10, which the parent provides too; in the child the parent's provider 2 wins. -/
theorem c10_witness :
    dlookup 10 (((specializeInj 0
        [⟨⟨60, 61⟩, [⟨33, [10], []⟩]⟩] (some []) wParent).2).inj
      (specializeInj 0 [⟨⟨60, 61⟩, [⟨33, [10], []⟩]⟩] (some []) wParent).1).providers
      = some (.func 2) :=
  (c10_amended_parent_beats_specialize_psets 0
    [⟨⟨60, 61⟩, [⟨33, [10], []⟩]⟩] [] wParent 10
    (by decide) (by decide) (by decide)).2 (.func 2) (by decide) (by decide)

/-- With no provider sets, a freshly constructed injector's state is exactly
the self-provider entry over the local-providers overlay, with an empty
resolving set and an empty memo. -/
theorem injectorInit_nopsets_inj_self (l : List (OId × Callable)) (w : World) :
    ((injectorInit [] (some l) w).2).inj (injectorInit [] (some l) w).1
      = ⟨dinsert injectorClsId (Callable.injSelf w.nextInj) (dictUpdate [] l),
         [], []⟩ := by
  simp only [injectorInit, World.inj, World.setInj, List.foldl_nil]
  rw [dlookup_dinsert_self]
  rfl

/-- With no provider sets, construction touches no other injector's state. -/
theorem injectorInit_nopsets_inj_other (l : List (OId × Callable)) (w : World)
    (j : Nat) (hj : j ≠ w.nextInj) :
    ((injectorInit [] (some l) w).2).inj j = w.inj j := by
  simp only [injectorInit, World.inj, World.setInj, List.foldl_nil]
  rw [dlookup_dinsert_ne _ _ hj]

theorem option_match_id {β : Type} (o : Option β) :
    (match o with | some v => some v | none => (none : Option β)) = o := by
  cases o <;> rfl

/-- C6: `specialize` builds a child injector whose table is the parent's
snapshot overlaid with the override mapping and whose resolving set and memo
are fresh, without touching the parent's state; a bind on one injector never
alters another injector's state; and concretely, after specializing the
`X`-only parent with a `Y` provider, the child fully resolves `f` while the
parent's state is untouched and its own later bind of `f` still leaves `b`
open and deferred. -/
theorem c6_specialize_isolates_parent :
    (∀ (pI : Nat) (O : List (OId × Callable)) (w : World),
        pI ≠ w.nextInj → NodupKeys (w.inj pI).providers → NodupKeys O →
        (specializeInj pI [] (some O) w).1 = w.nextInj ∧
        (((specializeInj pI [] (some O) w).2).inj w.nextInj).currentlyBinding = [] ∧
        (((specializeInj pI [] (some O) w).2).inj w.nextInj).boundFuncs = [] ∧
        ((specializeInj pI [] (some O) w).2).inj pI = w.inj pI ∧
        (∀ k, k ≠ injectorClsId →
          dlookup k (((specializeInj pI [] (some O) w).2).inj w.nextInj).providers
            = match dlookup k O with
              | some v => some v
              | none => dlookup k (w.inj pI).providers)) ∧
    (∀ (impl : Nat → FnSpec) (fuel i j : Nat) (f : Callable) (w : World),
        j ≠ i → ((bindF impl fuel i f w).2).inj j = w.inj j) ∧
    ((bindF implS 10 1 (.func 1) wChild).1 = .ok (.part 2) ∧
     dlookup 2 (bindF implS 10 1 (.func 1) wChild).2.parts
       = some ⟨.func 1, [("a", .str "xval"), ("b", .str "yval")]⟩ ∧
     dlookup (Callable.part 2) (bindF implS 10 1 (.func 1) wChild).2.depMap = none ∧
     (bindF implS 10 1 (.func 1) wChild).2.inj 0 = wParent.inj 0 ∧
     dlookup 4 (bindF implS 10 0 (.func 1)
        (bindF implS 10 1 (.func 1) wChild).2).2.parts
       = some ⟨.func 1, [("a", .str "xval")]⟩ ∧
     dlookup (Callable.part 4) (bindF implS 10 0 (.func 1)
        (bindF implS 10 1 (.func 1) wChild).2).2.depMap
       = some [("b", ifY)]) := by
  refine ⟨?_, fun impl fuel i j f w hj => bindF_frame impl fuel i j hj f w, by decide⟩
  intro pI O w hpn hnd hnO
  have hspec : specializeInj pI [] (some O) w
      = injectorInit [] (some (dictUpdate (w.inj pI).providers O)) w := rfl
  have hself := injectorInit_nopsets_inj_self (dictUpdate (w.inj pI).providers O) w
  have hfst : (injectorInit [] (some (dictUpdate (w.inj pI).providers O)) w).1
      = w.nextInj := rfl
  have hself' : ((injectorInit [] (some (dictUpdate (w.inj pI).providers O)) w).2).inj
      w.nextInj
      = ⟨dinsert injectorClsId (Callable.injSelf w.nextInj)
          (dictUpdate [] (dictUpdate (w.inj pI).providers O)), [], []⟩ := hself
  refine ⟨rfl, ?_, ?_, ?_, ?_⟩
  · rw [hspec, hself']
  · rw [hspec, hself']
  · rw [hspec]
    exact injectorInit_nopsets_inj_other _ _ _ hpn
  · intro k hk
    rw [hspec, hself']
    show dlookup k (dinsert injectorClsId (Callable.injSelf w.nextInj)
      (dictUpdate [] (dictUpdate (w.inj pI).providers O))) = _
    rw [dlookup_dinsert_ne _ _ hk,
      dlookup_dictUpdate_nodup _ _ _ (nodupKeys_dictUpdate _ _ hnd),
      dlookup_dictUpdate_nodup _ _ _ hnO]
    cases ho : dlookup k O with
    | some v => rfl
    | none =>
      cases hp : dlookup k (w.inj pI).providers with
      | some pe => rfl
      | none => rfl

/-- C6 witness: the specialization clause applied to the concrete parent. -/
theorem c6_witness :
    dlookup 12 (((specializeInj 0 [] (some [(12, Callable.func 3)]) wParent).2).inj
      wParent.nextInj).providers
      = match dlookup 12 [(12, Callable.func 3)] with
        | some v => some v
        | none => dlookup 12 (wParent.inj 0).providers :=
  (c6_specialize_isolates_parent.1 0 [(12, .func 3)] wParent (by decide) (by decide)
    (by decide)).2.2.2.2 12 (by decide)

theorem make_interface_enum_eq (names : List String) (g : IdGen) :
    make_interface_enum names g
      = (⟨g.next, (enumFold g.next names ([], g.next + 1)).1⟩,
         ⟨(enumFold g.next names ([], g.next + 1)).2⟩) := rfl

theorem mem_dinsert {α β : Type} [DecidableEq α] (p : α × β) (k : α) (v : β)
    (l : List (α × β)) (h : p ∈ dinsert k v l) : p ∈ l ∨ p = (k, v) := by
  induction l with
  | nil =>
    simp only [dinsert, List.mem_cons, List.not_mem_nil, or_false] at h
    exact Or.inr h
  | cons hd tl ih =>
    by_cases hk : hd.1 = k
    · rw [show dinsert k v (hd :: tl) = (k, v) :: tl by simp [dinsert, hk]] at h
      rcases List.mem_cons.mp h with h | h
      · exact Or.inr h
      · exact Or.inl (List.mem_cons_of_mem _ h)
    · rw [show dinsert k v (hd :: tl) = hd :: dinsert k v tl by simp [dinsert, hk]] at h
      rcases List.mem_cons.mp h with h | h
      · exact Or.inl (h ▸ List.mem_cons_self _ _)
      · rcases ih h with hh | hh
        · exact Or.inl (List.mem_cons_of_mem _ hh)
        · exact Or.inr hh

theorem dlookup_mem {α β : Type} [DecidableEq α] (k : α) (v : β)
    (l : List (α × β)) (h : dlookup k l = some v) : (k, v) ∈ l := by
  induction l with
  | nil => cases h
  | cons hd tl ih =>
    by_cases hk : hd.1 = k
    · rw [show dlookup k (hd :: tl) = some hd.2 by simp [dlookup, hk]] at h
      injection h with h
      exact List.mem_cons.mpr (Or.inl (by rw [← hk, ← h]))
    · rw [show dlookup k (hd :: tl) = dlookup k tl by simp [dlookup, hk]] at h
      exact List.mem_cons_of_mem _ (ih h)

/-- Invariant of the construction loop: every attribute holds an instance of
the shared kind whose identity lies below the final counter, the counter only
grows, and every attribute either predates the loop or was minted by it (its
identity at least the starting counter). -/
theorem enumFold_inv (kind : OId) (names : List String) :
    ∀ (acc : List (String × PyObj)) (ctr : Nat),
      (∀ nv ∈ acc, nv.2.cls = kind ∧ nv.2.oid < ctr) →
      (∀ nv ∈ (enumFold kind names (acc, ctr)).1,
          nv.2.cls = kind ∧ nv.2.oid < (enumFold kind names (acc, ctr)).2) ∧
      ctr ≤ (enumFold kind names (acc, ctr)).2 ∧
      (∀ nv ∈ (enumFold kind names (acc, ctr)).1, nv ∈ acc ∨ ctr ≤ nv.2.oid) := by
  induction names with
  | nil =>
    intro acc ctr hinv
    exact ⟨hinv, Nat.le_refl _, fun nv h => Or.inl h⟩
  | cons n rest ih =>
    intro acc ctr hinv
    have hstep : enumFold kind (n :: rest) (acc, ctr)
        = enumFold kind rest (dinsert n ⟨ctr, kind⟩ acc, ctr + 1) := rfl
    have hinv' : ∀ nv ∈ dinsert n ⟨ctr, kind⟩ acc, nv.2.cls = kind ∧ nv.2.oid < ctr + 1 := by
      intro nv hm
      rcases mem_dinsert _ _ _ _ hm with hm | hm
      · obtain ⟨h1, h2⟩ := hinv nv hm
        exact ⟨h1, Nat.lt_succ_of_lt h2⟩
      · rw [hm]
        exact ⟨rfl, Nat.lt_succ_self _⟩
    obtain ⟨ha, hb, hc⟩ := ih (dinsert n ⟨ctr, kind⟩ acc) (ctr + 1) hinv'
    rw [hstep]
    refine ⟨ha, Nat.le_trans (Nat.le_succ _) hb, ?_⟩
    intro nv hm
    rcases hc nv hm with hm2 | hm2
    · rcases mem_dinsert _ _ _ _ hm2 with hm3 | hm3
      · exact Or.inl hm3
      · right
        rw [hm3]
    · exact Or.inr (Nat.le_trans (Nat.le_succ _) hm2)

/-- Attributes with different names always hold instances with different
identities: each loop step mints a strictly fresher identity. -/
theorem enumFold_distinct (kind : OId) (names : List String) :
    ∀ (acc : List (String × PyObj)) (ctr : Nat),
      (∀ nv ∈ acc, nv.2.oid < ctr) →
      (∀ nv nv', nv ∈ acc → nv' ∈ acc → nv.1 ≠ nv'.1 → nv.2.oid ≠ nv'.2.oid) →
      ∀ nv nv', nv ∈ (enumFold kind names (acc, ctr)).1 →
        nv' ∈ (enumFold kind names (acc, ctr)).1 → nv.1 ≠ nv'.1 →
        nv.2.oid ≠ nv'.2.oid := by
  induction names with
  | nil =>
    intro acc ctr _ hdist
    exact hdist
  | cons n rest ih =>
    intro acc ctr hbound hdist
    have hbound' : ∀ nv ∈ dinsert n ⟨ctr, kind⟩ acc, nv.2.oid < ctr + 1 := by
      intro nv hm
      rcases mem_dinsert _ _ _ _ hm with hm | hm
      · exact Nat.lt_succ_of_lt (hbound nv hm)
      · rw [hm]
        exact Nat.lt_succ_self _
    have hdist' : ∀ nv nv', nv ∈ dinsert n ⟨ctr, kind⟩ acc →
        nv' ∈ dinsert n ⟨ctr, kind⟩ acc → nv.1 ≠ nv'.1 → nv.2.oid ≠ nv'.2.oid := by
      intro nv nv' hm hm' hne
      rcases mem_dinsert _ _ _ _ hm with hm | hm
      · rcases mem_dinsert _ _ _ _ hm' with hm' | hm'
        · exact hdist nv nv' hm hm' hne
        · rw [hm']
          exact Nat.ne_of_lt (hbound nv hm)
      · rcases mem_dinsert _ _ _ _ hm' with hm' | hm'
        · rw [hm]
          exact (Nat.ne_of_lt (hbound nv' hm')).symm
        · rw [hm, hm'] at hne
          exact absurd rfl hne
    exact ih (dinsert n ⟨ctr, kind⟩ acc) (ctr + 1) hbound' hdist'

theorem length_dinsert_not_mem {α β : Type} [DecidableEq α] (k : α) (v : β)
    (l : List (α × β)) (h : k ∉ l.map Prod.fst) :
    (dinsert k v l).length = l.length + 1 := by
  induction l with
  | nil => rfl
  | cons hd tl ih =>
    simp only [List.map_cons, List.mem_cons] at h
    push_neg at h
    have hne : ¬ hd.1 = k := fun hh => h.1 hh.symm
    rw [show dinsert k v (hd :: tl) = hd :: dinsert k v tl by simp [dinsert, hne]]
    simp only [List.length_cons, ih h.2]

/-- With pairwise-distinct names disjoint from the accumulator's keys, the
loop adds exactly one attribute per name. -/
theorem enumFold_length (kind : OId) (names : List String) :
    ∀ (acc : List (String × PyObj)) (ctr : Nat), names.Nodup →
      (∀ n ∈ names, n ∉ acc.map Prod.fst) →
      (enumFold kind names (acc, ctr)).1.length = acc.length + names.length := by
  induction names with
  | nil =>
    intro acc ctr _ _
    rfl
  | cons n rest ih =>
    intro acc ctr hnd hdisj
    obtain ⟨hn, hnd'⟩ := List.nodup_cons.mp hnd
    have hstep : enumFold kind (n :: rest) (acc, ctr)
        = enumFold kind rest (dinsert n ⟨ctr, kind⟩ acc, ctr + 1) := rfl
    have hdisj' : ∀ n' ∈ rest, n' ∉ (dinsert n ⟨ctr, kind⟩ acc).map Prod.fst := by
      intro n' hm hmem
      rcases mem_keys_dinsert _ _ _ _ hmem with hh | hh
      · exact hdisj n' (List.mem_cons_of_mem _ hm) hh
      · exact hn (hh ▸ hm)
    rw [hstep, ih _ (ctr + 1) hnd' hdisj',
      length_dinsert_not_mem _ _ _ (hdisj n (List.mem_cons_self _ _))]
    simp [Nat.add_assoc, Nat.add_comm 1]

/-- C9 counterexample: a group created from the duplicated name list
`["a", "a"]` has one member attribute, not two — the second `setattr`
overwrites the first — so a list of N names does not always yield N member
identities. -/
theorem c9_duplicate_names_collapse_members :
    (make_interface_enum ["a", "a"] ⟨0⟩).1.members.length = 1 ∧
    ¬ (make_interface_enum ["a", "a"] ⟨0⟩).1.members.length
        = (["a", "a"] : List String).length := by
  decide

theorem pyObj_ne_of_oid_ne {i j : PyObj} (h : i.oid ≠ j.oid) : i ≠ j :=
  fun heq => h (heq ▸ rfl)

/-- Every member of a group carries the group's kind and an identity minted
strictly between the generator state before and after the creation call. -/
theorem enum_member_range (names : List String) (g : IdGen) (n : String) (i : PyObj)
    (h : (make_interface_enum names g).1.member n = some i) :
    i.cls = g.next ∧ g.next < i.oid ∧ i.oid < (make_interface_enum names g).2.next := by
  rw [make_interface_enum_eq] at h
  simp only [IfEnum.member] at h
  have hm := dlookup_mem _ _ _ h
  obtain ⟨ha, _, hc⟩ := enumFold_inv g.next names [] (g.next + 1)
    (by intro nv hmm; cases hmm)
  obtain ⟨h1, h2⟩ := ha _ hm
  rcases hc _ hm with hmm | hmm
  · cases hmm
  · exact ⟨h1, Nat.lt_of_succ_le hmm, by rw [make_interface_enum_eq]; exact h2⟩

theorem enum_next_gt (names : List String) (g : IdGen) :
    g.next < (make_interface_enum names g).2.next := by
  obtain ⟨_, hb, _⟩ := enumFold_inv g.next names [] (g.next + 1)
    (by intro nv hmm; cases hmm)
  rw [make_interface_enum_eq]
  exact Nat.lt_of_succ_le hb

/-- C9 (amended): an interface group built from pairwise-distinct names has
exactly one member per name; members of one group are pairwise distinct
identities all carrying the group's kind, and member access is a pure lookup
(repeated access yields the same identity); interfaces and groups minted by
distinct creation calls (threaded through the generator) are never equal and
never share a kind, whichever of the two creation operations produced each. -/
theorem c9_amended_interface_identity :
    (∀ (names : List String) (g : IdGen), names.Nodup →
        (make_interface_enum names g).1.members.length = names.length) ∧
    (∀ (names : List String) (g : IdGen) (n n' : String) (i i' : PyObj),
        n ≠ n' → (make_interface_enum names g).1.member n = some i →
        (make_interface_enum names g).1.member n' = some i' → i ≠ i') ∧
    (∀ (names : List String) (g : IdGen) (n : String) (i : PyObj),
        (make_interface_enum names g).1.member n = some i →
        i.cls = (make_interface_enum names g).1.kind) ∧
    (∀ (names : List String) (g : IdGen) (n : String),
        (make_interface_enum names g).1.member n
          = (make_interface_enum names g).1.member n) ∧
    (∀ g : IdGen,
        (make_interface ((make_interface g).2)).1 ≠ (make_interface g).1 ∧
        (make_interface ((make_interface g).2)).1.cls ≠ (make_interface g).1.cls) ∧
    (∀ (names names' : List String) (g : IdGen),
        (make_interface_enum names' (make_interface_enum names g).2).1.kind
          ≠ (make_interface_enum names g).1.kind ∧
        (∀ (n n' : String) (i i' : PyObj),
          (make_interface_enum names g).1.member n = some i →
          (make_interface_enum names' (make_interface_enum names g).2).1.member n'
            = some i' → i' ≠ i ∧ i'.cls ≠ i.cls)) ∧
    (∀ (names : List String) (g : IdGen) (n : String) (i : PyObj),
        (make_interface_enum names (make_interface g).2).1.member n = some i →
        i ≠ (make_interface g).1 ∧ i.cls ≠ (make_interface g).1.cls) ∧
    (∀ (names : List String) (g : IdGen) (n : String) (i : PyObj),
        (make_interface_enum names g).1.member n = some i →
        (make_interface (make_interface_enum names g).2).1 ≠ i ∧
        (make_interface (make_interface_enum names g).2).1.cls ≠ i.cls) := by
  refine ⟨?_, ?_, ?_, ?_, ?_, ?_, ?_, ?_⟩
  · intro names g hnd
    rw [make_interface_enum_eq]
    show (enumFold g.next names ([], g.next + 1)).1.length = names.length
    rw [enumFold_length g.next names [] (g.next + 1) hnd (by intro n _ hmem; cases hmem)]
    simp
  · intro names g n n' i i' hne h h'
    rw [make_interface_enum_eq] at h h'
    simp only [IfEnum.member] at h h'
    have hd := enumFold_distinct g.next names [] (g.next + 1)
      (by intro nv hmm; cases hmm)
      (by intro nv nv' hmm; cases hmm)
      (n, i) (n', i') (dlookup_mem _ _ _ h) (dlookup_mem _ _ _ h') hne
    exact pyObj_ne_of_oid_ne hd
  · intro names g n i h
    rw [make_interface_enum_eq]
    exact (enum_member_range names g n i h).1
  · intro names g n
    rfl
  · intro g
    constructor
    · refine pyObj_ne_of_oid_ne ?_
      simp [make_interface]
    · simp [make_interface]
  · intro names names' g
    have hgt := enum_next_gt names g
    constructor
    · have hk2 : (make_interface_enum names' (make_interface_enum names g).2).1.kind
          = (make_interface_enum names g).2.next := rfl
      have hk1 : (make_interface_enum names g).1.kind = g.next := rfl
      rw [hk2, hk1]
      exact Nat.ne_of_gt hgt
    · intro n n' i i' h h'
      obtain ⟨hc1, hl1, hu1⟩ := enum_member_range names g n i h
      obtain ⟨hc2, hl2, _⟩ := enum_member_range names' (make_interface_enum names g).2 n' i' h'
      constructor
      · exact pyObj_ne_of_oid_ne (Nat.ne_of_gt (Nat.lt_trans hu1 hl2))
      · rw [hc1, hc2]
        exact Nat.ne_of_gt hgt
  · intro names g n i h
    obtain ⟨hc, hl, _⟩ := enum_member_range names (make_interface g).2 n i h
    have h2 : (make_interface g).2.next = g.next + 2 := rfl
    have h3 : (make_interface g).1.oid = g.next + 1 := rfl
    have h4 : (make_interface g).1.cls = g.next := rfl
    rw [h2] at hl
    constructor
    · refine pyObj_ne_of_oid_ne (Nat.ne_of_gt ?_)
      rw [h3]
      exact Nat.lt_of_succ_lt hl
    · rw [hc, h2, h4]
      exact Nat.ne_of_gt (Nat.lt_add_of_pos_right (by omega))
  · intro names g n i h
    obtain ⟨hc, hl, hu⟩ := enum_member_range names g n i h
    have hgt := enum_next_gt names g
    have h3 : (make_interface (make_interface_enum names g).2).1.oid
        = (make_interface_enum names g).2.next + 1 := rfl
    have h4 : (make_interface (make_interface_enum names g).2).1.cls
        = (make_interface_enum names g).2.next := rfl
    constructor
    · refine pyObj_ne_of_oid_ne (Nat.ne_of_gt ?_)
      rw [h3]
      exact Nat.lt_succ_of_lt hu
    · rw [hc, h4]
      exact Nat.ne_of_gt hgt

/-- C9 witness: two distinct names yield exactly two members. -/
theorem c9_witness :
    (make_interface_enum ["red", "green"] ⟨0⟩).1.members.length
      = (["red", "green"] : List String).length :=
  c9_amended_interface_identity.1 ["red", "green"] ⟨0⟩ (by decide)

/-- C1 witness: the spec's own example — a table providing only `X` and `f`
depending on `{a: X, b: Y}` — instantiates the theorem: the bind succeeds,
pre-fills `a`, defers `b`, and declares `{b: Y}` on the artifact. -/
theorem c1_witness :
    ∃ pid w', bindF implS 3 0 (.func 1) wParent = (.ok (.part pid), w') ∧
      dlookup pid w'.parts
        = some ⟨.func 1, resolvedKwargs implS (wParent.inj 0) [("a", ifX), ("b", ifY)]⟩ ∧
      dlookup (Callable.part pid) w'.depMap
        = some (unprovidedOf (wParent.inj 0) [("a", ifX), ("b", ifY)]) ∧
      dlookup (Callable.func 1) ((w'.inj 0)).boundFuncs = some (.part pid) := by
  refine c1_partial_bind_prefills_and_defers implS 0 0 (.func 1) wParent [("a", ifX), ("b", ifY)]
    ?_ (by decide) (by decide) (by decide) ?_ (by decide)
  · intro pid r h
    exact Option.noConfusion h
  · intro nd hm
    rcases List.mem_cons.mp hm with hm | hm
    · subst hm
      right
      exact ⟨2, by decide, ⟨by decide, by decide, by decide, Or.inl (by decide)⟩, by decide⟩
    · rcases List.mem_cons.mp hm with hm | hm
      · subst hm
        left
        decide
      · cases hm

end Tiedye
